import Mathlib

/-!
# Verification of the ENTANGLE CDGram transport and application protocol

Shallow embedding of the core of `yshui/entangle`:

* `src/cdgram/src/lib.rs` — the CDGram server/client (handshake state
  machine driven as a coroutine, per-address auth-state map, AEAD framing);
* `src/daemon/src/server.rs` — the application-level event handling
  (`ClientStates::handle_event`, device registry, timeout tasks);
* `src/daemon/src/proto.rs` — the `FixedBitSet` serializer;
* `src/config/src/base64.rs` — the base64url-no-pad key deserializer.

Bytes are modelled as `Nat` values (< 256); packets as `List Nat`.
The libsodium primitives (`box`, `kx`, `aead`) are not part of the
repository; they are modelled from the spec's descriptions: `box` and `kx`
are built over an abstract Diffie-Hellman with the commuting property
`dh a (pkOf b) = dh b (pkOf a)`, seal/open use a deterministic tag so that
open succeeds exactly on honestly sealed packets, preserving the length
relations (`len(sealed) = len(msg) + MACBYTES`) the code depends on.
-/

namespace Entangle

/-! ## Byte-level helpers -/

/-- Little-endian encoding of `v` into exactly `n` bytes. -/
def toBytesN (n v : Nat) : List Nat :=
  (List.range n).map (fun i => v / 256 ^ i % 256)

/-- Little-endian decoding of a byte list. -/
def fromBytes (l : List Nat) : Nat :=
  l.foldr (fun b acc => b + 256 * acc) 0

@[simp] theorem length_toBytesN (n v : Nat) : (toBytesN n v).length = n := by
  simp [toBytesN]

theorem toBytesN_succ (n v : Nat) :
    toBytesN (n + 1) v = v % 256 :: toBytesN n (v / 256) := by
  simp only [toBytesN, List.range_succ_eq_map, List.map_cons, pow_zero, Nat.div_one,
    List.map_map]
  congr 1
  apply List.map_congr_left
  intro i _
  simp only [Function.comp_apply]
  rw [Nat.div_div_eq_div_mul]
  congr 2
  rw [pow_succ]
  ring

theorem fromBytes_cons (b : Nat) (l : List Nat) :
    fromBytes (b :: l) = b + 256 * fromBytes l := by
  simp [fromBytes]

@[simp] theorem fromBytes_nil : fromBytes [] = 0 := rfl

/-- Decoding inverts encoding for values below `256 ^ n`. -/
theorem fromBytes_toBytesN {n v : Nat} (h : v < 256 ^ n) :
    fromBytes (toBytesN n v) = v := by
  induction n generalizing v with
  | zero => simp at h; simp [toBytesN, fromBytes, h]
  | succ n ih =>
    rw [toBytesN_succ, fromBytes_cons, ih]
    · exact Nat.mod_add_div v 256
    · rw [pow_succ] at h
      exact Nat.div_lt_of_lt_mul (by omega)

/-! ## Model of the libsodium primitives

Modelled from the spec: the `sodiumoxide` crates (`box_`, `kx`, `aead`)
are external to the repository.  Sizes follow §4.2 of the spec:
`BOXPK = 32`, `KXPK = 32`, `NONCE = 24`, `MAC = 16`, `CH = 32`. -/

def BOXPK : Nat := 32
def KXPK : Nat := 32
def NONCEBYTES : Nat := 24
def MACBYTES : Nat := 16

/-- Group modulus of the abstract Diffie-Hellman. -/
def DHMOD : Nat := 256 ^ 32

/-- Modelled from the spec: the public key of a long-term or ephemeral
secret `sk`, as 32 bytes (abstract `g^sk`, here `2·sk mod DHMOD`). -/
def pkOf (sk : Nat) : List Nat := toBytesN 32 (2 * sk % DHMOD)

@[simp] theorem length_pkOf (sk : Nat) : (pkOf sk).length = 32 := by
  simp [pkOf]

/-- Modelled from the spec: Diffie-Hellman shared secret of secret `sk`
and a peer public key given as bytes. -/
def dh (sk : Nat) (pk : List Nat) : Nat := sk * fromBytes pk % DHMOD

/-- The defining property of the key exchange: both sides compute the same
shared secret. -/
theorem dh_pkOf_comm (a b : Nat) : dh a (pkOf b) = dh b (pkOf a) := by
  have hlt : ∀ c : Nat, 2 * c % DHMOD < 256 ^ 32 := fun c =>
    Nat.mod_lt _ (by norm_num [DHMOD])
  simp only [dh, pkOf, fromBytes_toBytesN (hlt _)]
  conv_lhs => rw [Nat.mul_mod, Nat.mod_mod_of_dvd _ dvd_rfl, ← Nat.mul_mod]
  conv_rhs => rw [Nat.mul_mod, Nat.mod_mod_of_dvd _ dvd_rfl, ← Nat.mul_mod]
  ring_nf

/-- Modelled from the spec: deterministic 16-byte authenticator tag over a
shared secret, a nonce and a message. -/
def macTag (shared : Nat) (nonce m : List Nat) : List Nat :=
  toBytesN 16 ((shared + 3 * fromBytes nonce + 5 * fromBytes m + 7 * m.length) % 256 ^ 16)

@[simp] theorem length_macTag (shared : Nat) (nonce m : List Nat) :
    (macTag shared nonce m).length = 16 := by
  simp [macTag]

/-- Modelled from the spec: `box_::seal` — public-key authenticated
encryption from the holder of `sk` to the holder of the secret behind
`pk`.  Output length is `m.length + MACBYTES`. -/
def boxSeal (m nonce : List Nat) (pk : List Nat) (sk : Nat) : List Nat :=
  macTag (dh sk pk) nonce m ++ m

/-- Modelled from the spec: `box_::open` — succeeds exactly when the tag
verifies under the shared secret recomputed from (`sk`, sender `pk`). -/
def boxOpen (c nonce : List Nat) (pk : List Nat) (sk : Nat) : Option (List Nat) :=
  if c.length < 16 then none
  else
    let tag := c.take 16
    let m := c.drop 16
    if tag = macTag (dh sk pk) nonce m then some m else none

@[simp] theorem length_boxSeal (m nonce pk : List Nat) (sk : Nat) :
    (boxSeal m nonce pk sk).length = 16 + m.length := by
  simp [boxSeal]

/-- Opening an honestly sealed box with the mirrored key material yields
the plaintext. -/
theorem boxOpen_boxSeal (m nonce : List Nat) (skS skR : Nat) :
    boxOpen (boxSeal m nonce (pkOf skR) skS) nonce (pkOf skS) skR = some m := by
  have hdh := dh_pkOf_comm skR (b := skS)
  simp [boxOpen, boxSeal, Nat.add_comm, hdh]

/-- Modelled from the spec: symmetric AEAD seal (`aead::seal`, no AAD). -/
def aeadSeal (m nonce : List Nat) (k : Nat) : List Nat :=
  macTag k nonce m ++ m

/-- Modelled from the spec: symmetric AEAD open (`aead::open`); fails on
ciphertexts shorter than the tag and on tag mismatch. -/
def aeadOpen (c nonce : List Nat) (k : Nat) : Option (List Nat) :=
  if c.length < 16 then none
  else
    let tag := c.take 16
    let m := c.drop 16
    if tag = macTag k nonce m then some m else none

theorem aeadOpen_aeadSeal (m nonce : List Nat) (k : Nat) :
    aeadOpen (aeadSeal m nonce k) nonce k = some m := by
  simp [aeadOpen, aeadSeal, Nat.add_comm]

/-- Modelled from the spec: derivation of one directional session key from
the key-exchange shared secret. -/
def kdf (i shared : Nat) : Nat := 2 * shared + i

/-- Modelled from the spec: `kx::client_session_keys(client_pk, client_sk,
server_pk) = (rx, tx)`. -/
def client_session_keys (_pk : List Nat) (sk : Nat) (peerPk : List Nat) : Nat × Nat :=
  (kdf 0 (dh sk peerPk), kdf 1 (dh sk peerPk))

/-- Modelled from the spec: `kx::server_session_keys(server_pk, server_sk,
client_pk) = (rx, tx)`; mirror of the client assignment (my tx = your rx). -/
def server_session_keys (_pk : List Nat) (sk : Nat) (peerPk : List Nat) : Nat × Nat :=
  (kdf 1 (dh sk peerPk), kdf 0 (dh sk peerPk))

/-! ## Association-list model of `HashMap` -/

/-- `HashMap` lookup (`get`), modelled on an association list. -/
def lookupA {α : Type} (l : List (Nat × α)) (k : Nat) : Option α :=
  (l.find? (fun p => p.1 = k)).map (·.2)

/-- `HashMap` insert-or-replace. -/
def insertA {α : Type} (l : List (Nat × α)) (k : Nat) (v : α) : List (Nat × α) :=
  match l with
  | [] => [(k, v)]
  | (k', v') :: rest => if k' = k then (k, v) :: rest else (k', v') :: insertA rest k v

/-- `HashMap` remove. -/
def removeA {α : Type} (l : List (Nat × α)) (k : Nat) : List (Nat × α) :=
  l.filter (fun p => p.1 ≠ k)

@[simp] theorem lookupA_nil {α : Type} (k : Nat) : lookupA ([] : List (Nat × α)) k = none := rfl

theorem lookupA_cons {α : Type} (p : Nat × α) (l : List (Nat × α)) (k : Nat) :
    lookupA (p :: l) k = if p.1 = k then some p.2 else lookupA l k := by
  by_cases h : p.1 = k <;> simp [lookupA, List.find?, h]

theorem insertA_cons {α : Type} (p : Nat × α) (l : List (Nat × α)) (k : Nat) (v : α) :
    insertA (p :: l) k v = if p.1 = k then (k, v) :: l else p :: insertA l k v := by
  rcases p with ⟨k', v'⟩
  rfl

theorem removeA_cons {α : Type} (p : Nat × α) (l : List (Nat × α)) (k : Nat) :
    removeA (p :: l) k = if p.1 = k then removeA l k else p :: removeA l k := by
  by_cases h : p.1 = k <;> simp [removeA, List.filter_cons, h]

@[simp] theorem lookupA_insertA_self {α : Type} (l : List (Nat × α)) (k : Nat) (v : α) :
    lookupA (insertA l k v) k = some v := by
  induction l with
  | nil => simp [insertA, lookupA_cons]
  | cons p rest ih =>
    rw [insertA_cons]
    by_cases h : p.1 = k
    · simp [h, lookupA_cons]
    · simp [h, lookupA_cons, ih]

theorem lookupA_insertA_ne {α : Type} (l : List (Nat × α)) (k k' : Nat) (v : α)
    (h : k' ≠ k) : lookupA (insertA l k v) k' = lookupA l k' := by
  have h2 : ¬(k = k') := fun hh => h hh.symm
  induction l with
  | nil => simp [insertA, lookupA_cons, h2]
  | cons p rest ih =>
    rw [insertA_cons]
    by_cases hp : p.1 = k
    · rw [if_pos hp, lookupA_cons, lookupA_cons, if_neg h2, hp, if_neg h2]
    · rw [if_neg hp, lookupA_cons, lookupA_cons, ih]

@[simp] theorem lookupA_removeA_self {α : Type} (l : List (Nat × α)) (k : Nat) :
    lookupA (removeA l k) k = none := by
  induction l with
  | nil => rfl
  | cons p rest ih =>
    rw [removeA_cons]
    by_cases h : p.1 = k
    · rw [if_pos h]; exact ih
    · rw [if_neg h, lookupA_cons, if_neg h]; exact ih

theorem lookupA_removeA_ne {α : Type} (l : List (Nat × α)) (k k' : Nat) (h : k' ≠ k) :
    lookupA (removeA l k) k' = lookupA l k' := by
  induction l with
  | nil => rfl
  | cons p rest ih =>
    rw [removeA_cons]
    by_cases hp : p.1 = k
    · rw [if_pos hp, lookupA_cons, hp, if_neg (fun hh => h hh.symm)]; exact ih
    · rw [if_neg hp, lookupA_cons, lookupA_cons, ih]

theorem removeA_of_lookupA_none {α : Type} (l : List (Nat × α)) (k : Nat)
    (h : lookupA l k = none) : removeA l k = l := by
  induction l with
  | nil => rfl
  | cons p rest ih =>
    rw [lookupA_cons] at h
    by_cases hp : p.1 = k
    · simp [hp] at h
    · rw [removeA_cons, if_neg hp, ih (by simpa [hp] using h)]

/-! ## The handshake coroutine (`handshake` in `src/cdgram/src/lib.rs`)

The coroutine yields once with `None` (that suspension is consumed by
`start()`), then alternates feed/yield.  Embedded as an explicit state
machine: `awaitPkt1` is the state right after `start()`, `awaitPkt3` the
state after the first reply was yielded. -/

/-- Randomness consumed by one server-side handshake: the nonce for the
challenge response, the ephemeral kx secret key, and the 32-byte server
challenge. -/
structure HSRand where
  boxNonce : List Nat
  kxSk : Nat
  challenge : List Nat

inductive HSState
  | awaitPkt1
  | awaitPkt3 (clientPk clientKxPk challenge : List Nat) (kxSk : Nat)
  deriving DecidableEq, Repr

instance {ε α : Type} [DecidableEq ε] [DecidableEq α] : DecidableEq (Except ε α)
  | .ok x, .ok y =>
    if h : x = y then .isTrue (by rw [h]) else .isFalse (fun hh => h (Except.ok.inj hh))
  | .error x, .error y =>
    if h : x = y then .isTrue (by rw [h]) else .isFalse (fun hh => h (Except.error.inj hh))
  | .ok _, .error _ => .isFalse (fun hh => Except.noConfusion hh)
  | .error _, .ok _ => .isFalse (fun hh => Except.noConfusion hh)

/-- Result of resuming the coroutine once: either it suspends again at a
yield (`yielded`) or it returns (`done`). -/
inductive HSRes
  | yielded (st : HSState) (reply : Option (List Nat))
  | done (r : Except String (Nat × Nat))
  deriving DecidableEq, Repr

/-- One `turn` of the handshake coroutine (`handshake`,
`src/cdgram/src/lib.rs:114-159`), fed one packet. -/
def hsTurn (ourSk : Nat) (rand : HSRand) : HSState → List Nat → HSRes
  | .awaitPkt1, pkt =>
    if pkt.length ≠ KXPK + BOXPK + 32 then .done (.error "Malformed initial handshake packet")
    else
      let clientPk := pkt.take BOXPK
      let clientKxPk := (pkt.drop BOXPK).take KXPK
      let response := boxSeal (pkt.drop (KXPK + BOXPK)) rand.boxNonce clientPk ourSk
      let send := rand.challenge ++ pkOf rand.kxSk ++ rand.boxNonce ++ response
      .yielded (.awaitPkt3 clientPk clientKxPk rand.challenge rand.kxSk) (some send)
  | .awaitPkt3 clientPk clientKxPk challenge kxSk, pkt =>
    if pkt.length ≠ 32 + MACBYTES + NONCEBYTES then .done (.error "Malformed ")
    else
      match boxOpen (pkt.drop NONCEBYTES) (pkt.take NONCEBYTES) clientPk ourSk with
      | none => .done (.error "Client failed challenge")
      | some response =>
        if response ≠ challenge then .done (.error "Client response does not match the challenge")
        else .done (.ok (server_session_keys (pkOf kxSk) kxSk clientKxPk))

/-! ## CDGramServer (`src/cdgram/src/lib.rs:160-244`) -/

/-- Per-peer auth state (`enum AuthState`). -/
inductive AuthState
  | initiated (hs : HSState)
  | completed (rx tx : Nat)
  deriving DecidableEq, Repr

/-- `CDGramServer` (socket omitted; addresses are `Nat`). -/
structure ServerState where
  secret : Nat
  authorizedKeys : List (List Nat)
  authStates : List (Nat × AuthState)
  deriving DecidableEq, Repr

/-- Outcome of processing one datagram inside `CDGramServer::recv`:
the loop either continues waiting for another datagram, returns a
decrypted payload, returns an error (`?` on `aead::open` failure), or
panics (out-of-bounds slice). -/
inductive StepRes
  | next
  | delivered (addr : Nat) (msg : List Nat)
  | errored (e : String)
  | panicked
  deriving DecidableEq, Repr

structure StepOut where
  state : ServerState
  sent : List (Nat × List Nat)
  res : StepRes
  deriving DecidableEq, Repr

/-- Dispatch on the result of a handshake `turn`
(`src/cdgram/src/lib.rs:189-206`): a yielded reply is sent back and the
(mutated-in-place) coroutine stays `Initiated`; `Ok` keys replace the
entry with `Completed`; an error removes the entry. -/
def processTurn (s : ServerState) (addr : Nat) : HSRes → StepOut
  | .yielded st' reply =>
    ⟨{ s with authStates := insertA s.authStates addr (.initiated st') },
      (reply.map (fun r => (addr, r))).toList, .next⟩
  | .done (.ok (rx, tx)) =>
    ⟨{ s with authStates := insertA s.authStates addr (.completed rx tx) }, [], .next⟩
  | .done (.error _) =>
    ⟨{ s with authStates := removeA s.authStates addr }, [], .next⟩

/-- One iteration of `CDGramServer::recv` (`src/cdgram/src/lib.rs:161-215`)
on the datagram `(addr, buf)`.  For a vacant address the first-packet
checks run (length ≥ `BOXPK`, leading pubkey authorized), then a fresh
coroutine is started and turned on the same buffer.  For a `Completed`
address the code slices `buf[0..NONCEBYTES]` with no length check: a
shorter buffer is an out-of-bounds panic. -/
def serverStep (s : ServerState) (rand : HSRand) (addr : Nat) (buf : List Nat) : StepOut :=
  match lookupA s.authStates addr with
  | none =>
    if buf.length < BOXPK then ⟨s, [], .next⟩
    else if buf.take BOXPK ∉ s.authorizedKeys then ⟨s, [], .next⟩
    else processTurn s addr (hsTurn s.secret rand .awaitPkt1 buf)
  | some (.initiated hs) => processTurn s addr (hsTurn s.secret rand hs buf)
  | some (.completed rx _tx) =>
    if buf.length < NONCEBYTES then ⟨s, [], .panicked⟩
    else
      match aeadOpen (buf.drop NONCEBYTES) (buf.take NONCEBYTES) rx with
      | some m => ⟨s, [], .delivered addr m⟩
      | none => ⟨s, [], .errored "Failed to decrypt client package"⟩

/-- `CDGramServer::close`: remove the peer's entry. -/
def serverClose (s : ServerState) (addr : Nat) : ServerState :=
  { s with authStates := removeA s.authStates addr }

/-! ## CDGramClient (`src/cdgram/src/lib.rs:246-342`) -/

/-- The client's first handshake packet
(`CDGramClient::connect`, `src/cdgram/src/lib.rs:270-277`):
`client_box_pk || client_kx_pk || challenge`. -/
def clientHello (clientPk : List Nat) (ckxSk : Nat) (challenge : List Nat) : List Nat :=
  clientPk ++ pkOf ckxSk ++ challenge

/-- The rest of `CDGramClient::connect` (`src/cdgram/src/lib.rs:280-317`):
process the server's reply, producing the session keys `(rx, tx)` and the
third handshake packet. -/
def clientProcess (clientSk : Nat) (serverPublic : List Nat) (ckxSk : Nat)
    (challenge nonce3 reply : List Nat) : Except String ((Nat × Nat) × List Nat) :=
  if reply.length ≠ 32 + KXPK + NONCEBYTES + 32 + MACBYTES then .error "Malformed server reply"
  else
    let serverKxPk := (reply.drop 32).take KXPK
    let nonce := (reply.drop (32 + KXPK)).take NONCEBYTES
    match boxOpen (reply.drop (32 + KXPK + NONCEBYTES)) nonce serverPublic clientSk with
    | none => .error "Server failed challenge"
    | some serverResponse =>
      if serverResponse ≠ challenge then .error "Server reponse does not match the challenge"
      else
        let response := boxSeal (reply.take 32) nonce3 serverPublic clientSk
        .ok (client_session_keys (pkOf ckxSk) ckxSk serverKxPk, nonce3 ++ response)

/-- Outcome of `CDGramClient::recv`. -/
inductive CRecvRes
  | ok (m : List Nat)
  | err (e : String)
  | panicked
  deriving DecidableEq, Repr

/-- `CDGramClient::recv` (`src/cdgram/src/lib.rs:332-341`) applied to one
received packet: like the server's Completed branch it slices
`pkt[0..NONCEBYTES]` without any length check. -/
def clientRecv (sessionKeys : Option (Nat × Nat)) (pkt : List Nat) : CRecvRes :=
  match sessionKeys with
  | none => .err "Client not connected yet"
  | some (rx, _tx) =>
    if pkt.length < NONCEBYTES then .panicked
    else
      match aeadOpen (pkt.drop NONCEBYTES) (pkt.take NONCEBYTES) rx with
      | some m => .ok m
      | none => .err "Failed to decrypt server message"

/-! ## List splitting helpers -/

theorem take_len_append {α : Type} (l₁ l₂ : List α) : (l₁ ++ l₂).take l₁.length = l₁ := by
  induction l₁ with
  | nil => rfl
  | cons x xs ih => simp [ih]

theorem drop_len_append {α : Type} (l₁ l₂ : List α) : (l₁ ++ l₂).drop l₁.length = l₂ := by
  induction l₁ with
  | nil => rfl
  | cons x xs ih => simp [ih]

theorem take_append_of_len {α : Type} (l₁ l₂ : List α) (n : Nat) (h : l₁.length = n) :
    (l₁ ++ l₂).take n = l₁ := by subst h; exact take_len_append l₁ l₂

theorem drop_append_of_len {α : Type} (l₁ l₂ : List α) (n : Nat) (h : l₁.length = n) :
    (l₁ ++ l₂).drop n = l₂ := by subst h; exact drop_len_append l₁ l₂

/-! ## Claims C1, C5, C7 — receive-path behaviour of the server -/

/-- **C1** (code bug): the spec requires `len(packet) ≥ NONCEBYTES` before
decryption in Completed state, but neither `CDGramServer::recv`
(`src/cdgram/src/lib.rs:207-212`) nor `CDGramClient::recv`
(`src/cdgram/src/lib.rs:332-341`) checks the length: both slice
`buf[0..NONCEBYTES]` directly, so an empty (or any `< NONCEBYTES`-byte)
datagram causes an out-of-bounds panic instead of an error. -/
theorem C1_short_packet_panics :
    serverStep ⟨1, [], [(0, .completed 5 6)]⟩ ⟨[], 0, []⟩ 0 [] =
      ⟨⟨1, [], [(0, .completed 5 6)]⟩, [], .panicked⟩
    ∧ clientRecv (some (5, 6)) [] = .panicked := by
  exact ⟨rfl, rfl⟩

/-- **C5**: whenever the handshake coroutine turn performed for a datagram
returns an error — malformed length at step 1 or step 3, sealed-box open
failure at step 3, or a response different from the issued challenge
(these are exactly the error paths of `hsTurn`) — `CDGramServer::recv`
removes the peer's auth-state entry entirely and sends no reply
(`src/cdgram/src/lib.rs:202-205`).  The two disjuncts cover an existing
`Initiated` entry and a first packet from a vacant address. -/
theorem C5_handshake_failure_evicts (s : ServerState) (rand : HSRand) (a : Nat)
    (buf : List Nat)
    (h : (∃ hs, lookupA s.authStates a = some (.initiated hs) ∧
            ∃ e, hsTurn s.secret rand hs buf = .done (.error e)) ∨
         (lookupA s.authStates a = none ∧ BOXPK ≤ buf.length ∧
            buf.take BOXPK ∈ s.authorizedKeys ∧
            ∃ e, hsTurn s.secret rand .awaitPkt1 buf = .done (.error e))) :
    serverStep s rand a buf = ⟨{ s with authStates := removeA s.authStates a }, [], .next⟩ := by
  rcases h with ⟨hs, hlk, e, he⟩ | ⟨hlk, hlen, hmem, e, he⟩
  · unfold serverStep
    rw [hlk]
    simp [he, processTurn]
  · unfold serverStep
    rw [hlk]
    simp [Nat.not_lt.mpr hlen, hmem, he, processTurn]

/-- Witness for C5: an `Initiated` peer sends an empty third packet; the
entry is deleted and nothing is sent. -/
theorem C5_witness :
    serverStep ⟨1, [], [(0, .initiated .awaitPkt1)]⟩ ⟨[], 0, []⟩ 0 [] =
      ⟨⟨1, [], []⟩, [], .next⟩ := by
  have h := C5_handshake_failure_evicts ⟨1, [], [(0, .initiated .awaitPkt1)]⟩ ⟨[], 0, []⟩ 0 []
    (Or.inl ⟨.awaitPkt1, rfl, "Malformed initial handshake packet", rfl⟩)
  exact h

/-- **C7**: an AEAD open failure on a packet for a Completed address makes
`recv` return an error while the entire auth-state map — in particular the
address's `Completed` entry and its session keys — is left unchanged, and
nothing is sent (`src/cdgram/src/lib.rs:207-212`: the failure propagates
with `?` before any map mutation; only handshake errors evict). -/
theorem C7_payload_error_preserves_state (s : ServerState) (rand : HSRand) (a : Nat)
    (buf : List Nat) (rx tx : Nat)
    (hlk : lookupA s.authStates a = some (.completed rx tx))
    (hlen : NONCEBYTES ≤ buf.length)
    (hopen : aeadOpen (buf.drop NONCEBYTES) (buf.take NONCEBYTES) rx = none) :
    serverStep s rand a buf = ⟨s, [], .errored "Failed to decrypt client package"⟩ := by
  unfold serverStep
  rw [hlk]
  simp [Nat.not_lt.mpr hlen, hopen]

/-- Witness for C7: a 40-byte forged datagram for a Completed peer with
session key 1 fails to decrypt; the state survives untouched. -/
theorem C7_witness :
    serverStep ⟨1, [], [(0, .completed 1 2)]⟩ ⟨[], 0, []⟩ 0 (List.replicate 40 0) =
      ⟨⟨1, [], [(0, .completed 1 2)]⟩, [], .errored "Failed to decrypt client package"⟩ :=
  C7_payload_error_preserves_state _ _ _ _ 1 2 rfl (by decide) (by decide)

/-! ## Claim C3 — completed sessions have mirrored key pairs -/

/-- Dispatch lemma: datagram from a vacant address with an authorized
leading pubkey runs a fresh handshake turn. -/
theorem serverStep_vacant_auth (s : ServerState) (rand : HSRand) (addr : Nat) (buf : List Nat)
    (hvac : lookupA s.authStates addr = none)
    (hlen : BOXPK ≤ buf.length)
    (hmem : buf.take BOXPK ∈ s.authorizedKeys) :
    serverStep s rand addr buf = processTurn s addr (hsTurn s.secret rand .awaitPkt1 buf) := by
  unfold serverStep
  rw [hvac]
  rw [if_neg (Nat.not_lt.mpr hlen), if_neg (not_not_intro hmem)]

/-- Dispatch lemma: datagram for an `Initiated` address feeds the stored
coroutine. -/
theorem serverStep_initiated (s : ServerState) (rand : HSRand) (addr : Nat) (buf : List Nat)
    (hs : HSState) (hlk : lookupA s.authStates addr = some (.initiated hs)) :
    serverStep s rand addr buf = processTurn s addr (hsTurn s.secret rand hs buf) := by
  unfold serverStep
  rw [hlk]

/-- Turning the server handshake on a well-formed first packet yields the
second packet and moves to `awaitPkt3`. -/
theorem hsTurn_pkt1 (ourSk ckx : Nat) (rand : HSRand) (clientPk cCh : List Nat)
    (hpk : clientPk.length = 32) (hcc : cCh.length = 32) :
    hsTurn ourSk rand .awaitPkt1 (clientPk ++ pkOf ckx ++ cCh) =
      .yielded (.awaitPkt3 clientPk (pkOf ckx) rand.challenge rand.kxSk)
        (some (rand.challenge ++ pkOf rand.kxSk ++ rand.boxNonce ++
          boxSeal cCh rand.boxNonce clientPk ourSk)) := by
  have e0 : (clientPk ++ pkOf ckx ++ cCh).length = 96 := by simp [hpk, hcc]
  have e1 : (clientPk ++ pkOf ckx ++ cCh).take 32 = clientPk := by
    rw [List.append_assoc]
    exact take_append_of_len _ _ _ hpk
  have e2 : (clientPk ++ pkOf ckx ++ cCh).drop 32 = pkOf ckx ++ cCh := by
    rw [List.append_assoc]
    exact drop_append_of_len _ _ _ hpk
  have e2' : (pkOf ckx ++ cCh).take 32 = pkOf ckx :=
    take_append_of_len _ _ _ (length_pkOf ckx)
  have e3 : (clientPk ++ pkOf ckx ++ cCh).drop 64 = cCh := by
    apply drop_append_of_len
    simp [hpk]
  simp only [hsTurn, BOXPK, KXPK, e0, e1, e2, e2', e3]
  norm_num

/-- Turning the server handshake on a well-formed third packet sealing the
issued challenge completes with the server session keys. -/
theorem hsTurn_pkt3_ok (ourSk cSk kxSk : Nat) (rand : HSRand)
    (clientKxPk challenge n3 : List Nat)
    (hch : challenge.length = 32) (hn3 : n3.length = 24) :
    hsTurn ourSk rand (.awaitPkt3 (pkOf cSk) clientKxPk challenge kxSk)
        (n3 ++ boxSeal challenge n3 (pkOf ourSk) cSk) =
      .done (.ok (server_session_keys (pkOf kxSk) kxSk clientKxPk)) := by
  have e0 : (n3 ++ boxSeal challenge n3 (pkOf ourSk) cSk).length = 72 := by
    simp [hn3, hch]
  have e1 : (n3 ++ boxSeal challenge n3 (pkOf ourSk) cSk).take 24 = n3 :=
    take_append_of_len _ _ _ hn3
  have e2 : (n3 ++ boxSeal challenge n3 (pkOf ourSk) cSk).drop 24 =
      boxSeal challenge n3 (pkOf ourSk) cSk :=
    drop_append_of_len _ _ _ hn3
  simp only [hsTurn, NONCEBYTES, MACBYTES, e0, e1, e2]
  norm_num
  rw [boxOpen_boxSeal]
  simp

/-- The client accepts a well-formed second packet that seals its own
challenge, derives its session keys and produces the third packet. -/
theorem clientProcess_pkt2 (cSk sSk ckx skx : Nat) (sCh cCh nS n3 : List Nat)
    (hsc : sCh.length = 32) (hcc : cCh.length = 32) (hnS : nS.length = 24) :
    clientProcess cSk (pkOf sSk) ckx cCh n3
        (sCh ++ pkOf skx ++ nS ++ boxSeal cCh nS (pkOf cSk) sSk) =
      .ok (client_session_keys (pkOf ckx) ckx (pkOf skx),
        n3 ++ boxSeal sCh n3 (pkOf sSk) cSk) := by
  have e0 : (sCh ++ pkOf skx ++ nS ++ boxSeal cCh nS (pkOf cSk) sSk).length = 136 := by
    simp [hsc, hnS, hcc]
  have e1 : (sCh ++ pkOf skx ++ nS ++ boxSeal cCh nS (pkOf cSk) sSk).take 32 = sCh := by
    rw [List.append_assoc, List.append_assoc]
    exact take_append_of_len _ _ _ hsc
  have e2 : (sCh ++ pkOf skx ++ nS ++ boxSeal cCh nS (pkOf cSk) sSk).drop 32 =
      pkOf skx ++ (nS ++ boxSeal cCh nS (pkOf cSk) sSk) := by
    rw [List.append_assoc, List.append_assoc]
    exact drop_append_of_len _ _ _ hsc
  have e2' : (pkOf skx ++ (nS ++ boxSeal cCh nS (pkOf cSk) sSk)).take 32 = pkOf skx :=
    take_append_of_len _ _ _ (length_pkOf skx)
  have e3 : (sCh ++ pkOf skx ++ nS ++ boxSeal cCh nS (pkOf cSk) sSk).drop 64 =
      nS ++ boxSeal cCh nS (pkOf cSk) sSk := by
    rw [List.append_assoc]
    apply drop_append_of_len
    simp [hsc]
  have e3' : (nS ++ boxSeal cCh nS (pkOf cSk) sSk).take 24 = nS :=
    take_append_of_len _ _ _ hnS
  have e4 : (sCh ++ pkOf skx ++ nS ++ boxSeal cCh nS (pkOf cSk) sSk).drop 88 =
      boxSeal cCh nS (pkOf cSk) sSk := by
    apply drop_append_of_len
    simp [hsc, hnS]
  simp only [clientProcess, KXPK, NONCEBYTES, MACBYTES, e0, e1, e2, e2', e3, e3', e4]
  norm_num
  rw [boxOpen_boxSeal]
  simp

/-- **C3**: for every session in which the three-message handshake
completes on both sides (a well-formed exchange between the holder of the
authorized client key and the server), the client's `tx` equals the
server's `rx` and the client's `rx` equals the server's `tx`
(`src/cdgram/src/lib.rs:157-159` and `:310-315`; the mirror property of
`kx` is modelled from the spec). -/
theorem C3_session_keys_mirror
    (sSk cSk skx ckx a : Nat) (auths : List (List Nat)) (sCh cCh nS n3 : List Nat)
    (hsc : sCh.length = 32) (hcc : cCh.length = 32)
    (hnS : nS.length = 24) (hn3 : n3.length = 24)
    (hmem : pkOf cSk ∈ auths) :
    ∃ pkt2 keysC pkt3 s1 srx stx s2,
      serverStep ⟨sSk, auths, []⟩ ⟨nS, skx, sCh⟩ a (clientHello (pkOf cSk) ckx cCh) =
          ⟨s1, [(a, pkt2)], .next⟩
        ∧ clientProcess cSk (pkOf sSk) ckx cCh n3 pkt2 = .ok (keysC, pkt3)
        ∧ serverStep s1 ⟨nS, skx, sCh⟩ a pkt3 = ⟨s2, [], .next⟩
        ∧ lookupA s2.authStates a = some (.completed srx stx)
        ∧ keysC.2 = srx ∧ keysC.1 = stx := by
  refine ⟨sCh ++ pkOf skx ++ nS ++ boxSeal cCh nS (pkOf cSk) sSk,
    client_session_keys (pkOf ckx) ckx (pkOf skx),
    n3 ++ boxSeal sCh n3 (pkOf sSk) cSk,
    ⟨sSk, auths, [(a, .initiated (.awaitPkt3 (pkOf cSk) (pkOf ckx) sCh skx))]⟩,
    kdf 1 (dh skx (pkOf ckx)), kdf 0 (dh skx (pkOf ckx)),
    ⟨sSk, auths, [(a, .completed (kdf 1 (dh skx (pkOf ckx))) (kdf 0 (dh skx (pkOf ckx))))]⟩,
    ?_, ?_, ?_, ?_, ?_, ?_⟩
  · have hh := hsTurn_pkt1 sSk ckx ⟨nS, skx, sCh⟩ (pkOf cSk) cCh (length_pkOf cSk) hcc
    have htk : (clientHello (pkOf cSk) ckx cCh).take BOXPK = pkOf cSk := by
      rw [clientHello, List.append_assoc]
      exact take_append_of_len _ _ _ (length_pkOf cSk)
    rw [serverStep_vacant_auth _ _ a _ (lookupA_nil a) (by simp [clientHello, hcc, BOXPK])
      (by rw [htk]; exact hmem)]
    simp only [clientHello]
    rw [hh]
    simp [processTurn, insertA]
  · exact clientProcess_pkt2 cSk sSk ckx skx sCh cCh nS n3 hsc hcc hnS
  · have hh := hsTurn_pkt3_ok sSk cSk skx ⟨nS, skx, sCh⟩ (pkOf ckx) sCh n3 hsc hn3
    rw [serverStep_initiated _ _ a _ (.awaitPkt3 (pkOf cSk) (pkOf ckx) sCh skx)
      (by rw [lookupA_cons]; simp)]
    rw [hh]
    simp [processTurn, insertA, server_session_keys]
  · simp [lookupA_cons]
  · simp [client_session_keys, kdf, dh_pkOf_comm]
  · simp [client_session_keys, kdf, dh_pkOf_comm]

/-- Witness for C3: the full exchange at concrete key material. -/
theorem C3_witness :
    ∃ pkt2 keysC pkt3 s1 srx stx s2,
      serverStep ⟨1, [pkOf 2], []⟩ ⟨toBytesN 24 5, 4, toBytesN 32 6⟩ 0
          (clientHello (pkOf 2) 3 (toBytesN 32 7)) = ⟨s1, [(0, pkt2)], .next⟩
        ∧ clientProcess 2 (pkOf 1) 3 (toBytesN 32 7) (toBytesN 24 8) pkt2 = .ok (keysC, pkt3)
        ∧ serverStep s1 ⟨toBytesN 24 5, 4, toBytesN 32 6⟩ 0 pkt3 = ⟨s2, [], .next⟩
        ∧ lookupA s2.authStates 0 = some (.completed srx stx)
        ∧ keysC.2 = srx ∧ keysC.1 = stx :=
  C3_session_keys_mirror 1 2 4 3 0 [pkOf 2] (toBytesN 32 6) (toBytesN 32 7)
    (toBytesN 24 5) (toBytesN 24 8) (by simp) (by simp) (by simp) (by simp)
    (by simp)

/-! ## Claim C2 — Completed entries stem from authorized first packets

`AuthState.completed` does not store the creating public key, so the
invariant is proved over a ghost map recording, for each live auth-state
entry, the leading `BOXPK` bytes of the packet that created it (the packet
that initiated the handshake for that address). -/

/-- `serverStep` plus ghost bookkeeping: when an entry for `addr` springs
into existence the creating packet's claimed pubkey is recorded; when the
entry disappears the record is dropped. -/
def stepG (s : ServerState) (g : List (Nat × List Nat)) (rand : HSRand) (addr : Nat)
    (buf : List Nat) : ServerState × List (Nat × List Nat) :=
  ((serverStep s rand addr buf).state,
    match lookupA s.authStates addr,
        lookupA (serverStep s rand addr buf).state.authStates addr with
    | none, some _ => insertA g addr (buf.take BOXPK)
    | some _, none => removeA g addr
    | _, _ => g)

/-- States (with ghost) reachable from a freshly constructed
`CDGramServer` by any sequence of received datagrams and `close` calls. -/
inductive ReachableG : ServerState → List (Nat × List Nat) → Prop
  | init (secret : Nat) (authorized : List (List Nat)) :
      ReachableG ⟨secret, authorized, []⟩ []
  | recv (s : ServerState) (g : List (Nat × List Nat)) (rand : HSRand) (addr : Nat)
      (buf : List Nat) : ReachableG s g →
      ReachableG (stepG s g rand addr buf).1 (stepG s g rand addr buf).2
  | close (s : ServerState) (g : List (Nat × List Nat)) (addr : Nat) : ReachableG s g →
      ReachableG (serverClose s addr) (removeA g addr)

/-- Every live auth-state entry was created by a packet whose leading
pubkey is recorded in the ghost and lies in the authorized set. -/
def CreatorInv (s : ServerState) (g : List (Nat × List Nat)) : Prop :=
  ∀ addr st, lookupA s.authStates addr = some st →
    ∃ pk, lookupA g addr = some pk ∧ pk ∈ s.authorizedKeys

theorem creatorInv_removeState (s : ServerState) (g : List (Nat × List Nat)) (a : Nat)
    (h : CreatorInv s g) :
    CreatorInv { s with authStates := removeA s.authStates a } g := by
  intro addr st hl
  by_cases ha : addr = a
  · subst ha
    rw [lookupA_removeA_self] at hl
    cases hl
  · rw [lookupA_removeA_ne _ _ _ ha] at hl
    exact h addr st hl

theorem creatorInv_removeBoth (s : ServerState) (g : List (Nat × List Nat)) (a : Nat)
    (h : CreatorInv s g) :
    CreatorInv { s with authStates := removeA s.authStates a } (removeA g a) := by
  intro addr st hl
  by_cases ha : addr = a
  · subst ha
    rw [lookupA_removeA_self] at hl
    cases hl
  · rw [lookupA_removeA_ne _ _ _ ha] at hl
    rcases h addr st hl with ⟨pk, hpk, hmem⟩
    exact ⟨pk, by rw [lookupA_removeA_ne _ _ _ ha]; exact hpk, hmem⟩

theorem creatorInv_insertBoth (s : ServerState) (g : List (Nat × List Nat)) (a : Nat)
    (st : AuthState) (pk : List Nat) (hpk : pk ∈ s.authorizedKeys) (h : CreatorInv s g) :
    CreatorInv { s with authStates := insertA s.authStates a st } (insertA g a pk) := by
  intro addr st' hl
  by_cases ha : addr = a
  · subst ha
    exact ⟨pk, lookupA_insertA_self g addr pk, hpk⟩
  · rw [lookupA_insertA_ne _ _ _ _ ha] at hl
    rcases h addr st' hl with ⟨pk', hpk', hmem'⟩
    exact ⟨pk', by rw [lookupA_insertA_ne _ _ _ _ ha]; exact hpk', hmem'⟩

theorem creatorInv_insertState (s : ServerState) (g : List (Nat × List Nat)) (a : Nat)
    (st0 st : AuthState) (h0 : lookupA s.authStates a = some st0) (h : CreatorInv s g) :
    CreatorInv { s with authStates := insertA s.authStates a st } g := by
  intro addr st' hl
  by_cases ha : addr = a
  · subst ha
    exact h addr st0 h0
  · rw [lookupA_insertA_ne _ _ _ _ ha] at hl
    exact h addr st' hl

/-- One ghost step preserves the creator invariant. -/
theorem creatorInv_stepG (s : ServerState) (g : List (Nat × List Nat)) (rand : HSRand)
    (addr : Nat) (buf : List Nat) (hinv : CreatorInv s g) :
    CreatorInv (stepG s g rand addr buf).1 (stepG s g rand addr buf).2 := by
  cases hl : lookupA s.authStates addr with
  | none =>
    by_cases hlen : buf.length < BOXPK
    · have hss : serverStep s rand addr buf = ⟨s, [], .next⟩ := by
        unfold serverStep
        rw [hl, if_pos hlen]
      simp only [stepG, hss, hl]
      exact hinv
    · by_cases hmemb : buf.take BOXPK ∈ s.authorizedKeys
      · have hss := serverStep_vacant_auth s rand addr buf hl (Nat.not_lt.mp hlen) hmemb
        cases ht : hsTurn s.secret rand .awaitPkt1 buf with
        | yielded st' reply =>
          rw [ht] at hss
          simp only [processTurn] at hss
          simp only [stepG, hss, hl, lookupA_insertA_self]
          exact creatorInv_insertBoth s g addr _ _ hmemb hinv
        | done r =>
          match r with
          | .ok (rx, tx) =>
            rw [ht] at hss
            simp only [processTurn] at hss
            simp only [stepG, hss, hl, lookupA_insertA_self]
            exact creatorInv_insertBoth s g addr _ _ hmemb hinv
          | .error e =>
            rw [ht] at hss
            simp only [processTurn] at hss
            simp only [stepG, hss, hl, lookupA_removeA_self]
            exact creatorInv_removeState s g addr hinv
      · have hss : serverStep s rand addr buf = ⟨s, [], .next⟩ := by
          unfold serverStep
          rw [hl, if_neg hlen, if_pos hmemb]
        simp only [stepG, hss, hl]
        exact hinv
  | some st =>
    match st with
    | .initiated hs =>
      have hss := serverStep_initiated s rand addr buf hs hl
      cases ht : hsTurn s.secret rand hs buf with
      | yielded st' reply =>
        rw [ht] at hss
        simp only [processTurn] at hss
        simp only [stepG, hss, hl, lookupA_insertA_self]
        exact creatorInv_insertState s g addr _ _ hl hinv
      | done r =>
        match r with
        | .ok (rx, tx) =>
          rw [ht] at hss
          simp only [processTurn] at hss
          simp only [stepG, hss, hl, lookupA_insertA_self]
          exact creatorInv_insertState s g addr _ _ hl hinv
        | .error e =>
          rw [ht] at hss
          simp only [processTurn] at hss
          simp only [stepG, hss, hl, lookupA_removeA_self]
          exact creatorInv_removeBoth s g addr hinv
    | .completed rx tx =>
      have hss : (serverStep s rand addr buf).state = s := by
        unfold serverStep
        rw [hl]
        by_cases h24 : buf.length < NONCEBYTES
        · simp [h24]
        · cases ho : aeadOpen (buf.drop NONCEBYTES) (buf.take NONCEBYTES) rx <;>
            simp [h24, ho]
      simp only [stepG, hss, hl]
      exact hinv

/-- Every reachable server state satisfies the creator invariant. -/
theorem reachableG_creatorInv (s : ServerState) (g : List (Nat × List Nat))
    (h : ReachableG s g) : CreatorInv s g := by
  induction h with
  | init secret authorized =>
    intro a st hl
    simp at hl
  | recv s g rand addr buf _ ih => exact creatorInv_stepG s g rand addr buf ih
  | close s g addr _ ih => exact creatorInv_removeBoth s g addr ih

/-- **C2**: (i) in every reachable server state, a `Completed` entry's
creating packet (the first packet of its handshake, recorded in the ghost)
carried a pubkey in the authorized set — the server never completes a
session initiated by an unauthorized first packet; (ii) a first packet
from an unknown address whose leading pubkey is not authorized is dropped
silently: state unchanged, no entry created, nothing sent
(`src/cdgram/src/lib.rs:170-187`). -/
theorem C2_completed_only_authorized :
    (∀ (s : ServerState) (g : List (Nat × List Nat)) (addr rx tx : Nat),
        ReachableG s g → lookupA s.authStates addr = some (.completed rx tx) →
        ∃ pk, lookupA g addr = some pk ∧ pk ∈ s.authorizedKeys)
    ∧ (∀ (s : ServerState) (rand : HSRand) (addr : Nat) (buf : List Nat),
        lookupA s.authStates addr = none → BOXPK ≤ buf.length →
        buf.take BOXPK ∉ s.authorizedKeys →
        serverStep s rand addr buf = ⟨s, [], .next⟩) := by
  constructor
  · intro s g addr rx tx hr hl
    exact reachableG_creatorInv s g hr addr _ hl
  · intro s rand addr buf hvac hlen hmem
    unfold serverStep
    rw [hvac, if_neg (Nat.not_lt.mpr hlen), if_pos hmem]

/-! Concrete three-packet exchange used by the witnesses. -/

def demoS0 : ServerState := ⟨1, [pkOf 2], []⟩

def demoRand : HSRand := ⟨toBytesN 24 5, 4, toBytesN 32 6⟩

def demoPkt1 : List Nat := clientHello (pkOf 2) 3 (toBytesN 32 7)

def demoStep1 : ServerState × List (Nat × List Nat) := stepG demoS0 [] demoRand 0 demoPkt1

def demoPkt2 : List Nat :=
  ((serverStep demoS0 demoRand 0 demoPkt1).sent.map Prod.snd).headD []

def demoPkt3 : List Nat :=
  match clientProcess 2 (pkOf 1) 3 (toBytesN 32 7) (toBytesN 24 8) demoPkt2 with
  | .ok (_, p) => p
  | .error _ => []

def demoStep2 : ServerState × List (Nat × List Nat) :=
  stepG demoStep1.1 demoStep1.2 demoRand 0 demoPkt3

set_option maxRecDepth 100000 in
/-- Witness for C2: after a full concrete handshake the server holds a
`Completed` entry and the recorded first-packet pubkey is authorized. -/
theorem C2_witness :
    ∃ pk, lookupA demoStep2.2 0 = some pk ∧ pk ∈ demoStep2.1.authorizedKeys := by
  have h0 : ReachableG demoS0 [] := ReachableG.init 1 [pkOf 2]
  have h1 : ReachableG demoStep1.1 demoStep1.2 :=
    ReachableG.recv demoS0 [] demoRand 0 demoPkt1 h0
  have h2 : ReachableG demoStep2.1 demoStep2.2 :=
    ReachableG.recv demoStep1.1 demoStep1.2 demoRand 0 demoPkt3 h1
  exact C2_completed_only_authorized.1 demoStep2.1 demoStep2.2 0 49 48 h2 (by decide)

/-! ## Application protocol data model (`src/daemon/src/proto.rs`)

`FixedBitSet` (external `fixedbitset` crate, modelled from its interface):
a vector of 32-bit blocks plus a bit capacity; `as_slice` exposes the
blocks; derived equality compares blocks *and* capacity. -/

structure FixedBitSet where
  data : List Nat
  length : Nat
  deriving DecidableEq, Repr

/-- Crate invariant: `⌈length/32⌉` blocks, each a 32-bit word. -/
def WFBitset (b : FixedBitSet) : Prop :=
  (∀ x ∈ b.data, x < 2 ^ 32) ∧ b.data.length = (b.length + 31) / 32

instance (b : FixedBitSet) : Decidable (WFBitset b) := by
  unfold WFBitset
  infer_instance

/-- `struct InputDevice` (`src/daemon/src/proto.rs:32-54`), fields in
declaration order. -/
structure InputDevice where
  key_bits : FixedBitSet
  rel_bits : FixedBitSet
  cap : FixedBitSet
  name : String
  key_vals : FixedBitSet
  vendor : Nat
  product : Nat
  version : Nat
  deriving DecidableEq, Repr

/-- `enum InputDeviceUpdate` (`src/daemon/src/proto.rs:23-29`). -/
inductive InputDeviceUpdate
  | update (d : InputDevice)
  | drop
  deriving DecidableEq, Repr

/-! ## Claim C4 — `ClientStates::handle_event` on `Sync`
(`src/daemon/src/server.rs:45-83`) -/

/-- First loop of the `Sync` arm: for each `(id, dev)` the client claims,
a missing server id yields `Drop`; a differing device yields
`Update(dev.clone())` — note: `dev` is the *client's* claimed device, not
the server's current one. -/
def handleSyncUpdates (devices : List (Nat × InputDevice)) :
    List (Nat × InputDevice) → List (Nat × InputDeviceUpdate)
  | [] => []
  | (id, dev) :: rest =>
    match lookupA devices id with
    | none => (id, .drop) :: handleSyncUpdates devices rest
    | some e =>
      if dev ≠ e then (id, .update dev) :: handleSyncUpdates devices rest
      else handleSyncUpdates devices rest

/-- Second loop: `updates.entry(*id).or_insert_with(|| Update(dev))` over
every server device. -/
def orInsertAll (updates : List (Nat × InputDeviceUpdate)) :
    List (Nat × InputDevice) → List (Nat × InputDeviceUpdate)
  | [] => updates
  | (id, dev) :: rest =>
    orInsertAll
      (if (lookupA updates id).isSome then updates else updates ++ [(id, .update dev)]) rest

/-- The `Sync(devs)` arm of `handle_event`: the reply updates map and the
new `synced_devices` (`devices.keys().copied().collect()`). -/
def handleSync (devs devices : List (Nat × InputDevice)) :
    List (Nat × InputDeviceUpdate) × List Nat :=
  (orInsertAll (handleSyncUpdates devices devs) devices, devices.map Prod.fst)

def devA : InputDevice := ⟨⟨[], 0⟩, ⟨[], 0⟩, ⟨[], 0⟩, "", ⟨[], 0⟩, 1, 0, 0⟩

def devB : InputDevice := ⟨⟨[], 0⟩, ⟨[], 0⟩, ⟨[], 0⟩, "", ⟨[], 0⟩, 2, 0, 0⟩

/-- **C4** (code bug): with the server holding device 0 as `devB` and the
client claiming `devA ≠ devB`, the reply maps 0 to `Update devA` — the
client's own stale descriptor — where the spec requires the server's
current `devB` (the code clones the loop variable `dev` instead of the
looked-up `e`, `src/daemon/src/server.rs:62-66`).  And when the claimed
device matches exactly, the reply still contains an `Update` entry for it
(the second loop's `or_insert` keys on `updates`, not on the claimed set),
where the claim requires no entry.  The `synced_devices ← keys(devices)`
part does hold. -/
theorem C4_sync_reply_uses_client_state :
    devA ≠ devB
    ∧ handleSync [(0, devA)] [(0, devB)] = ([(0, .update devA)], [0])
    ∧ handleSync [(0, devA)] [(0, devA)] = ([(0, .update devA)], [0]) := by
  refine ⟨by decide, by decide, by decide⟩

/-! ## Claim C9 — device registry id assignment
(`src/daemon/src/server.rs:218-228` and `:291-301`) -/

/-- Id given to a device that appears through the udev monitor:
`devices2.lock().await.len()` (`src/daemon/src/server.rs:292`). -/
def newDeviceId (devices : List (Nat × InputDevice)) : Nat := devices.length

/-- Registry states reachable from initial enumeration (ids = positional
indexes) through device removal (`src/daemon/src/server.rs:288`) and
monitor insertion at id = current size (`:291-298`; the code asserts
freshness with `unwrap_none`). -/
inductive RegReachable : List (Nat × InputDevice) → Prop
  | init (devs : List InputDevice) : RegReachable devs.enum
  | removeDev (l : List (Nat × InputDevice)) (id : Nat) :
      RegReachable l → RegReachable (removeA l id)
  | addDev (l : List (Nat × InputDevice)) (d : InputDevice) :
      RegReachable l → RegReachable (insertA l (newDeviceId l) d)

/-- **C9** (code bug): after enumerating two devices and losing device 0,
the registry `[(1, devA)]` is reachable, and the id assigned to the next
monitor-discovered device is `len = 1` — already a key.  The claim (and
the code's own `unwrap_none` assertion) that the id is fresh and insertion
always succeeds is violated: `HashMap::insert` returns the old value and
`unwrap_none` panics. -/
theorem C9_id_collision_after_removal :
    RegReachable [(1, devA)]
    ∧ newDeviceId [(1, devA)] = 1
    ∧ lookupA [(1, devA)] 1 = some devA := by
  refine ⟨?_, rfl, by decide⟩
  have h0 : RegReachable [devB, devA].enum := RegReachable.init [devB, devA]
  have h1 := RegReachable.removeDev _ 0 h0
  exact h1

/-! ## Claim C6 — per-client timeout tasks (`src/daemon/src/server.rs`)

Transition system over the server's per-client timeout bookkeeping:
`clients` maps an address to its `timeout: Option<JoinHandle>` slot
(task ids are drawn from a counter), `live` is the set of spawned timeout
tasks that have neither finished nor been cancelled.

Transitions: `newClient` = entry creation with `timeout: None`
(`src/daemon/src/server.rs:250-254`); `packetCancel` = the cancel on any
client packet (`:39-43`); `arm` = cancel-then-spawn after a successful
send (`:269-276`, `:327-335`); `fire` = a timeout task completing by
enqueuing its `Timeout` event (`:273-275`); `removeClient` = `Timeout`
handling (`:304-314`, which `unwrap`s the slot and cancels it). -/

structure TClient where
  timeout : Option Nat
  deriving DecidableEq, Repr

structure TState where
  clients : List (Nat × TClient)
  live : List (Nat × Nat)
  next : Nat
  deriving DecidableEq, Repr

/-- `JoinHandle::cancel` on task `t`. -/
def cancelTask (live : List (Nat × Nat)) (t : Nat) : List (Nat × Nat) :=
  live.filter (fun p => p.1 ≠ t)

/-- `if let Some(h) = slot.take() { h.cancel() }`. -/
def cancelOpt (live : List (Nat × Nat)) : Option Nat → List (Nat × Nat)
  | none => live
  | some t => cancelTask live t

inductive TStep : TState → TState → Prop
  | newClient (s : TState) (a : Nat) (h : lookupA s.clients a = none) :
      TStep s ⟨insertA s.clients a ⟨none⟩, s.live, s.next⟩
  | packetCancel (s : TState) (a : Nat) (c : TClient)
      (h : lookupA s.clients a = some c) :
      TStep s ⟨insertA s.clients a ⟨none⟩, cancelOpt s.live c.timeout, s.next⟩
  | arm (s : TState) (a : Nat) (c : TClient) (h : lookupA s.clients a = some c) :
      TStep s ⟨insertA s.clients a ⟨some s.next⟩,
        (s.next, a) :: cancelOpt s.live c.timeout, s.next + 1⟩
  | fire (s : TState) (t a : Nat) (h : (t, a) ∈ s.live) :
      TStep s ⟨s.clients, cancelTask s.live t, s.next⟩
  | removeClient (s : TState) (a : Nat) (c : TClient) (t : Nat)
      (h : lookupA s.clients a = some c) (ht : c.timeout = some t) :
      TStep s ⟨removeA s.clients a, cancelTask s.live t, s.next⟩

inductive TReach : TState → Prop
  | init : TReach ⟨[], [], 0⟩
  | step (s s' : TState) : TReach s → TStep s s' → TReach s'

/-- Number of outstanding (live) timeout tasks owned by address `a`. -/
def taskCount (s : TState) (a : Nat) : Nat :=
  (s.live.filter (fun p => p.2 = a)).length

theorem mem_cancelTask (live : List (Nat × Nat)) (t : Nat) (p : Nat × Nat)
    (h : p ∈ cancelTask live t) : p ∈ live ∧ p.1 ≠ t := by
  unfold cancelTask at h
  exact ⟨List.mem_of_mem_filter h, by simpa using List.of_mem_filter h⟩

theorem mem_cancelOpt (live : List (Nat × Nat)) (o : Option Nat) (p : Nat × Nat)
    (h : p ∈ cancelOpt live o) : p ∈ live := by
  cases o with
  | none => exact h
  | some t => exact (mem_cancelTask live t p h).1

theorem nodup_cancelTask (live : List (Nat × Nat)) (t : Nat) (h : live.Nodup) :
    (cancelTask live t).Nodup :=
  List.Nodup.filter _ h

theorem nodup_cancelOpt (live : List (Nat × Nat)) (o : Option Nat) (h : live.Nodup) :
    (cancelOpt live o).Nodup := by
  cases o with
  | none => exact h
  | some t => exact nodup_cancelTask live t h

/-- Invariant tying each live timeout task to the slot of the client that
owns it: a live task id is exactly what its owner's `timeout` slot holds,
task ids are below the spawn counter, and the live set has no duplicates. -/
def TInv (s : TState) : Prop :=
  (∀ t a, (t, a) ∈ s.live → ∃ c, lookupA s.clients a = some c ∧ c.timeout = some t)
  ∧ (∀ t a, (t, a) ∈ s.live → t < s.next)
  ∧ s.live.Nodup

theorem tInv_step (s s' : TState) (hs : TStep s s') (hinv : TInv s) : TInv s' := by
  rcases hinv with ⟨h1, h2, h3⟩
  cases hs with
  | newClient a h =>
    refine ⟨?_, h2, h3⟩
    intro t b hm
    rcases h1 t b hm with ⟨c, hc, hct⟩
    by_cases hb : b = a
    · subst hb
      rw [h] at hc
      cases hc
    · exact ⟨c, by rw [lookupA_insertA_ne _ _ _ _ hb]; exact hc, hct⟩
  | packetCancel a c h =>
    refine ⟨?_, ?_, nodup_cancelOpt _ _ h3⟩
    · intro t b hm
      have hmem := mem_cancelOpt _ _ _ hm
      rcases h1 t b hmem with ⟨c', hc', hct'⟩
      by_cases hb : b = a
      · subst hb
        rw [h] at hc'
        obtain rfl : c = c' := Option.some.inj hc'
        rw [hct'] at hm
        exact absurd rfl (mem_cancelTask _ _ _ hm).2
      · exact ⟨c', by rw [lookupA_insertA_ne _ _ _ _ hb]; exact hc', hct'⟩
    · intro t b hm
      exact h2 t b (mem_cancelOpt _ _ _ hm)
  | arm a c h =>
    refine ⟨?_, ?_, ?_⟩
    · intro t b hm
      rcases List.mem_cons.mp hm with he | hm'
      · obtain ⟨rfl, rfl⟩ : t = s.next ∧ b = a := by
          exact ⟨congrArg Prod.fst he, congrArg Prod.snd he⟩
        exact ⟨⟨some s.next⟩, lookupA_insertA_self _ _ _, rfl⟩
      · have hmem := mem_cancelOpt _ _ _ hm'
        rcases h1 t b hmem with ⟨c', hc', hct'⟩
        by_cases hb : b = a
        · subst hb
          rw [h] at hc'
          obtain rfl : c = c' := Option.some.inj hc'
          rw [hct'] at hm'
          exact absurd rfl (mem_cancelTask _ _ _ hm').2
        · exact ⟨c', by rw [lookupA_insertA_ne _ _ _ _ hb]; exact hc', hct'⟩
    · intro t b hm
      dsimp only
      rcases List.mem_cons.mp hm with he | hm'
      · have : t = s.next := congrArg Prod.fst he
        omega
      · have := h2 t b (mem_cancelOpt _ _ _ hm')
        omega
    · refine List.nodup_cons.mpr ⟨?_, nodup_cancelOpt _ _ h3⟩
      intro hmem
      exact absurd (h2 s.next a (mem_cancelOpt _ _ _ hmem)) (lt_irrefl _)
  | fire t a h =>
    refine ⟨?_, ?_, nodup_cancelTask _ _ h3⟩
    · intro t' b hm
      exact h1 t' b (mem_cancelTask _ _ _ hm).1
    · intro t' b hm
      exact h2 t' b (mem_cancelTask _ _ _ hm).1
  | removeClient a c t h ht =>
    refine ⟨?_, ?_, nodup_cancelTask _ _ h3⟩
    · intro t' b hm
      have hmm := mem_cancelTask _ _ _ hm
      rcases h1 t' b hmm.1 with ⟨c', hc', hct'⟩
      by_cases hb : b = a
      · subst hb
        rw [h] at hc'
        obtain rfl : c = c' := Option.some.inj hc'
        rw [ht] at hct'
        exact absurd (Option.some.inj hct').symm hmm.2
      · exact ⟨c', by rw [lookupA_removeA_ne _ _ _ hb]; exact hc', hct'⟩
    · intro t' b hm
      exact h2 t' b (mem_cancelTask _ _ _ hm).1

theorem tReach_inv (s : TState) (h : TReach s) : TInv s := by
  induction h with
  | init =>
    exact ⟨fun t a hm => absurd hm (List.not_mem_nil _),
      fun t a hm => absurd hm (List.not_mem_nil _), List.nodup_nil⟩
  | step s s' hr hstep ih => exact tInv_step s s' hstep ih

theorem length_le_one_of_eq_of_nodup {α : Type} (l : List α) (hn : l.Nodup)
    (h : ∀ x ∈ l, ∀ y ∈ l, x = y) : l.length ≤ 1 := by
  match l with
  | [] => simp
  | [x] => simp
  | x :: y :: ys =>
    exfalso
    rw [List.nodup_cons] at hn
    exact hn.1 (by rw [h x (by simp) y (by simp)]; exact List.mem_cons_self y ys)

/-- **C6** (amended): in every reachable server state, each address owns
*at most one* outstanding timeout task — the previous task is cancelled
before a new one is armed (by construction of the `arm` transition,
mirroring `src/daemon/src/server.rs:269-276` and `:327-335`). -/
theorem C6_at_most_one_timeout (s : TState) (h : TReach s) (a : Nat) :
    taskCount s a ≤ 1 := by
  rcases tReach_inv s h with ⟨h1, _h2, h3⟩
  apply length_le_one_of_eq_of_nodup _ (List.Nodup.filter _ h3)
  intro x hx y hy
  have hxa : x.2 = a := by simpa using List.of_mem_filter hx
  have hya : y.2 = a := by simpa using List.of_mem_filter hy
  have hx' : (x.1, a) ∈ s.live := by
    rw [← hxa]
    simpa using List.mem_of_mem_filter hx
  have hy' : (y.1, a) ∈ s.live := by
    rw [← hya]
    simpa using List.mem_of_mem_filter hy
  rcases h1 x.1 a hx' with ⟨cx, hcx, hctx⟩
  rcases h1 y.1 a hy' with ⟨cy, hcy, hcty⟩
  obtain rfl : cx = cy := by
    rw [hcx] at hcy
    exact Option.some.inj hcy
  have ht : x.1 = y.1 := by
    rw [hctx] at hcty
    exact Option.some.inj hcty
  exact Prod.ext_iff.mpr ⟨ht, by rw [hxa, hya]⟩

/-- Witness for C6: the initial state is reachable and every address owns
at most one task there. -/
theorem C6_witness : taskCount ⟨[], [], 0⟩ 0 ≤ 1 :=
  C6_at_most_one_timeout ⟨[], [], 0⟩ TReach.init 0

/-- Counterexample for C6 as stated: "exactly one at every moment" fails —
a freshly registered client (entry created with `timeout: None`,
`src/daemon/src/server.rs:250-254`) is reachable and owns zero outstanding
timeout tasks. -/
theorem C6_counterexample :
    ¬ (∀ s : TState, TReach s → ∀ a c, lookupA s.clients a = some c → taskCount s a = 1) := by
  intro hall
  have hr : TReach ⟨[(0, ⟨none⟩)], [], 0⟩ :=
    TReach.step _ _ TReach.init (TStep.newClient ⟨[], [], 0⟩ 0 rfl)
  have h0 := hall _ hr 0 ⟨none⟩ rfl
  have h1 : (0 : Nat) = 1 := by
    rw [← h0]
    rfl
  exact absurd h1 (by decide)

/-! ## Claim C8 — `FixedBitSet` serialization
(`mod fixedbitset`, `src/daemon/src/proto.rs:63-88`) -/

/-- `LittleEndian::write_u32_into`: each 32-bit block becomes 4
little-endian bytes. -/
def writeU32s : List Nat → List Nat
  | [] => []
  | w :: rest => toBytesN 4 w ++ writeU32s rest

/-- `LittleEndian::read_u32_into`: groups of 4 bytes become blocks. -/
def readU32s : List Nat → List Nat
  | b0 :: b1 :: b2 :: b3 :: rest => fromBytes [b0, b1, b2, b3] :: readU32s rest
  | _ => []

/-- `fixedbitset::serialize` (`src/daemon/src/proto.rs:66-73`): the block
slice written out little-endian; byte length is `4 · #blocks`. -/
def bitsetSerialize (b : FixedBitSet) : List Nat := writeU32s b.data

/-- `fixedbitset::deserialize` (`src/daemon/src/proto.rs:74-87`): rejects
byte arrays whose length is not a multiple of 4; otherwise builds a bitset
`with_capacity(len * 8)` and fills its blocks. -/
def bitsetDeserialize (bytes : List Nat) : Except String FixedBitSet :=
  if bytes.length % 4 ≠ 0 then .error "byte array not aligned"
  else .ok ⟨readU32s bytes, bytes.length * 8⟩

theorem length_writeU32s (l : List Nat) : (writeU32s l).length = 4 * l.length := by
  induction l with
  | nil => rfl
  | cons w rest ih =>
    simp only [writeU32s, List.length_append, length_toBytesN, ih, List.length_cons]
    omega

theorem readU32s_writeU32s (l : List Nat) (h : ∀ x ∈ l, x < 2 ^ 32) :
    readU32s (writeU32s l) = l := by
  induction l with
  | nil => rfl
  | cons w rest ih =>
    have e : writeU32s (w :: rest) =
        (w / 256 ^ 0 % 256) :: (w / 256 ^ 1 % 256) :: (w / 256 ^ 2 % 256) ::
          (w / 256 ^ 3 % 256) :: writeU32s rest := rfl
    rw [e, readU32s, ih (fun x hx => h x (List.mem_cons_of_mem _ hx))]
    have e2 : fromBytes [w / 256 ^ 0 % 256, w / 256 ^ 1 % 256, w / 256 ^ 2 % 256,
        w / 256 ^ 3 % 256] = fromBytes (toBytesN 4 w) := rfl
    rw [e2, fromBytes_toBytesN (lt_of_lt_of_le (h w (List.mem_cons_self w rest)) (by norm_num))]

/-- **C8** (amended): serializing then deserializing a well-formed bitset
preserves the blocks (hence exactly the stored bits) but rounds the
capacity up to `32 · #blocks`; the byte length is always a multiple of 4;
and the round-trip is the identity exactly when the capacity is already a
multiple of 32. -/
theorem C8_bitset_roundtrip (b : FixedBitSet) (hwf : WFBitset b) :
    bitsetDeserialize (bitsetSerialize b) = .ok ⟨b.data, 32 * b.data.length⟩
    ∧ (bitsetSerialize b).length % 4 = 0
    ∧ (32 ∣ b.length → bitsetDeserialize (bitsetSerialize b) = .ok b) := by
  obtain ⟨hlt, hblocks⟩ := hwf
  have hlen : (bitsetSerialize b).length = 4 * b.data.length := length_writeU32s _
  have hmod : (bitsetSerialize b).length % 4 = 0 := by
    rw [hlen]
    exact Nat.mul_mod_right 4 _
  have hform : bitsetDeserialize (bitsetSerialize b) = .ok ⟨b.data, 32 * b.data.length⟩ := by
    unfold bitsetDeserialize
    rw [if_neg (not_not_intro hmod)]
    rw [show readU32s (bitsetSerialize b) = b.data from readU32s_writeU32s _ hlt, hlen]
    congr 1
    congr 1
    omega
  refine ⟨hform, hmod, ?_⟩
  intro hdvd
  rcases hdvd with ⟨k, hk⟩
  have hbk : b.data.length = k := by
    rw [hblocks, hk]
    omega
  rw [hform, hbk]
  congr 1
  rw [← hk]

/-- Witness for C8 (amended): a capacity-32 bitset round-trips exactly. -/
theorem C8_witness :
    bitsetDeserialize (bitsetSerialize ⟨[5], 32⟩) =
        .ok ⟨([5] : List Nat), 32 * ([5] : List Nat).length⟩
    ∧ (bitsetSerialize ⟨[5], 32⟩).length % 4 = 0
    ∧ ((32 : Nat) ∣ 32 → bitsetDeserialize (bitsetSerialize ⟨[5], 32⟩) = .ok ⟨[5], 32⟩) :=
  C8_bitset_roundtrip ⟨[5], 32⟩ (by decide)

/-- Counterexample for C8 as stated: a well-formed bitset of capacity 1
(one zero block) deserializes to a bitset of capacity 32 — not equal to
the original under the derived equality, which compares the capacity. -/
theorem C8_counterexample :
    WFBitset ⟨[0], 1⟩
    ∧ bitsetDeserialize (bitsetSerialize ⟨[0], 1⟩) = .ok ⟨[0], 32⟩
    ∧ (⟨[0], 32⟩ : FixedBitSet) ≠ ⟨[0], 1⟩ := by
  refine ⟨by decide, by decide, by decide⟩

/-! ## Claim C10 — configuration key deserialization
(`src/config/src/base64.rs:11-24`) -/

/-- Modelled from the spec: value of one base64url character
(`A-Z a-z 0-9 - _`); the `base64` crate is not part of the repository. -/
def b64Val (c : Char) : Option Nat :=
  if 'A' ≤ c ∧ c ≤ 'Z' then some (c.toNat - 65)
  else if 'a' ≤ c ∧ c ≤ 'z' then some (c.toNat - 97 + 26)
  else if '0' ≤ c ∧ c ≤ '9' then some (c.toNat - 48 + 52)
  else if c = '-' then some 62
  else if c = '_' then some 63
  else none

/-- Modelled from the spec: reassemble bytes from 6-bit values, unpadded;
a trailing group of one character is invalid. -/
def b64Chunks : List Nat → Option (List Nat)
  | [] => some []
  | [_] => none
  | [a, b] => some [a * 4 + b / 16]
  | [a, b, c] => some [a * 4 + b / 16, b % 16 * 16 + c / 4]
  | a :: b :: c :: d :: rest =>
    (b64Chunks rest).map
      (fun t => (a * 4 + b / 16) :: (b % 16 * 16 + c / 4) :: (c % 4 * 64 + d) :: t)

/-- Modelled from the spec: `base64::decode_config(s, URL_SAFE_NO_PAD)`. -/
def b64Decode (s : String) : Option (List Nat) :=
  match s.data.mapM b64Val with
  | none => none
  | some vals => b64Chunks vals

/-- `config::base64::deserialize` into an `N`-byte default array
(`src/config/src/base64.rs:11-24`): decode, then `Write::write` the bytes
into the zeroed array — which writes `min N len` bytes and reports that
count — and fail with "Length mismatch" iff the count falls short. -/
def deserializeKey (n : Nat) (s : String) : Except String (List Nat) :=
  match b64Decode s with
  | none => .error "base64 decode failure"
  | some v =>
    let written := min n v.length
    let arr := v.take n ++ List.replicate (n - v.length) 0
    if written ≠ v.length then .error "Length mismatch" else .ok arr

/-- **C10**: deserializing a config key succeeds for every valid
base64url-no-pad string whose decoded length is at most the array length —
the decoded bytes land at the front, the tail keeps the default value 0 —
and fails exactly when base64 decoding fails or the decoded length exceeds
the array length.  In particular a short key string is accepted, not
rejected. -/
theorem C10_key_deserialize (s : String) (n : Nat) :
    (∀ v, b64Decode s = some v → v.length ≤ n →
        deserializeKey n s = .ok (v ++ List.replicate (n - v.length) 0))
    ∧ (∀ v, b64Decode s = some v → n < v.length →
        deserializeKey n s = .error "Length mismatch")
    ∧ (b64Decode s = none → deserializeKey n s = .error "base64 decode failure") := by
  refine ⟨?_, ?_, ?_⟩
  · intro v hv hle
    unfold deserializeKey
    rw [hv]
    simp only [min_eq_right hle, ne_eq, not_true_eq_false, if_false, ite_false]
    rw [List.take_of_length_le hle]
  · intro v hv hlt
    unfold deserializeKey
    rw [hv]
    simp only [min_eq_left (Nat.le_of_lt hlt)]
    rw [if_pos (Nat.ne_of_lt hlt)]
  · intro hv
    unfold deserializeKey
    rw [hv]

/-- Witness for C10: the two-character key string "AA" decodes to the
single byte 0 and is accepted into a 32-byte array, zero-padded. -/
theorem C10_witness :
    deserializeKey 32 "AA" = .ok (([0] : List Nat) ++ List.replicate (32 - ([0] : List Nat).length) 0) :=
  (C10_key_deserialize "AA" 32).1 [0] rfl (by decide)

end Entangle
